import Mathlib

/-!
Verification of the geometry engine of `fixed-scroll` (`src/domMeasurements.js`).

The DOM is shallowly embedded: a document is a finite list of element records
indexed by natural numbers.  Each record carries exactly the layout fields the
source reads from the host: `offsetTop`, `offsetLeft`, `offsetWidth`,
`offsetHeight`, the `offsetParent` link, the computed `border-top-width` /
`border-left-width` (already parsed to a number, as `parseFloat` does), the
computed `overflow` string, the list of child elements and the `tagName`.
Pixel quantities are modelled as integers.

JavaScript `while (element.offsetParent)` loops are modelled with explicit
fuel; a decidable well-formedness predicate (`Dom.WFb`: every offset parent
has a strictly smaller index, which any acyclic document can be numbered to
satisfy) guarantees that the fuel supplied by the wrappers is enough, and a
fuel-irrelevance lemma shows the result is that of the unbounded loop.
-/

/-- One DOM element as the source observes it. -/
structure ElemData where
  offsetTop : Int := 0
  offsetLeft : Int := 0
  offsetWidth : Int := 0
  offsetHeight : Int := 0
  offsetParent : Option Nat := none
  borderTop : Int := 0
  borderLeft : Int := 0
  overflow : String := "visible"
  children : List Nat := []
  tagName : String := "DIV"
deriving Repr, DecidableEq, Inhabited

/-- A document: elements indexed by position in the list. -/
structure Dom where
  elems : List ElemData
deriving Repr, DecidableEq, Inhabited

/-- Element lookup; out-of-range indices behave as a detached default element
(no offset parent, zero metrics), mirroring the platform's graceful defaults. -/
def Dom.get (dom : Dom) (i : Nat) : ElemData :=
  dom.elems.getD i default

/-- Auxiliary scan: every element of the list names an offset parent with a
strictly smaller index than its own position (positions counted from `k`). -/
def parentsBelow : List ElemData → Nat → Bool
  | [], _ => true
  | e :: rest, k =>
    (match e.offsetParent with
     | none => true
     | some p => decide (p < k)) && parentsBelow rest (k + 1)

/-- Decidable well-formedness: offset-parent links strictly decrease indices,
so every offset-parent chain terminates. -/
def Dom.WFb (dom : Dom) : Bool :=
  parentsBelow dom.elems 0

/-- The `DomDimensions` record returned by every public operation. -/
structure Box where
  top : Int
  left : Int
  width : Int
  height : Int
  bottom : Int
  right : Int
deriving Repr, DecidableEq, Inhabited

/-- Result shape of `getBordersOffset`. -/
structure BorderOffset where
  top : Int
  left : Int
deriving Repr, DecidableEq

/-- `getBordersOffset` (src/domMeasurements.js:22-28): the element's computed
border-top-width and border-left-width. -/
def getBordersOffset (dom : Dom) (el : Nat) : BorderOffset :=
  { top := (dom.get el).borderTop, left := (dom.get el).borderLeft }

/-- `hasOverflow` (src/domMeasurements.js:35): true iff the computed
`overflow` is the literal string "visible". -/
def hasOverflow (dom : Dom) (el : Nat) : Bool :=
  (dom.get el).overflow = "visible"

/-- JavaScript `String.prototype.toLowerCase()` on ASCII tag names: lower-case
every character. -/
def strLower (s : String) : String :=
  ⟨s.data.map Char.toLower⟩

/-- `getChildren` (src/domMeasurements.js:42): direct children, filtered when
a tag-name list is supplied by `tagNames.includes(child.tagName.toLowerCase())`;
with no list every child (a truthy object) is kept. -/
def getChildren (dom : Dom) (el : Nat) (tagNames : Option (List String)) : List Nat :=
  (dom.get el).children.filter fun child =>
    match tagNames with
    | some ts => ts.contains (strLower (dom.get child).tagName)
    | none => true

/-- The `while (element.offsetParent)` loop of `getElementRect`
(src/domMeasurements.js:58-70), with explicit fuel.  `cur` is the loop's
`element` variable, `top`/`left` the accumulators. -/
def rectLoop (dom : Dom) (bound : Option Nat) :
    Nat → Nat → Int → Int → Int × Int
  | 0, _, top, left => (top, left)
  | fuel + 1, cur, top, left =>
    match (dom.get cur).offsetParent with
    | none => (top, left)
    | some p =>
      let border := getBordersOffset dom p
      let top := top + border.top
      let left := left + border.left
      if bound = some p then (top, left)
      else rectLoop dom bound fuel p (top + (dom.get p).offsetTop)
        (left + (dom.get p).offsetLeft)

/-- `getElementRect` (src/domMeasurements.js:51-80).  Fuel `el + 1` is enough
for every well-formed document since indices strictly decrease along the
chain. -/
def getElementRect (dom : Dom) (el : Nat) (bound : Option Nat) : Box :=
  let e := dom.get el
  let tl := rectLoop dom bound (el + 1) el e.offsetTop e.offsetLeft
  { top := tl.1
    left := tl.2
    width := e.offsetWidth
    height := e.offsetHeight
    bottom := tl.1 + e.offsetHeight
    right := tl.2 + e.offsetWidth }

/-- The four `if` statements of src/domMeasurements.js:123-134 that expand the
accumulated `contentRect` by a child's rect. -/
def expandBox (acc : Box) (rect : Box) : Box :=
  let acc := if rect.left < acc.left then { acc with left := rect.left } else acc
  let acc := if rect.right > acc.right then { acc with right := rect.right } else acc
  let acc := if rect.top < acc.top then { acc with top := rect.top } else acc
  if rect.bottom > acc.bottom then { acc with bottom := rect.bottom } else acc

/-- `getContentRectRecursive` (src/domMeasurements.js:113-147) with the
first-call defaults already resolved: `children` is the filtered child list,
`acc` the accumulated `contentRect`.  The `forEach` is a fold; the width and
height are recomputed after the loop exactly as lines 143-144 do. -/
def contentLoop (dom : Dom) (bound : Option Nat) (tags : Option (List String)) :
    Nat → List Nat → Box → Box
  | 0, _, acc => acc
  | fuel + 1, children, acc =>
    let acc := children.foldl (fun acc child =>
      let rect := getElementRect dom child bound
      let acc :=
        if rect.width > 0 ∧ rect.height > 0 then expandBox acc rect else acc
      let grandChildren := getChildren dom child tags
      if grandChildren ≠ [] ∧ hasOverflow dom child then
        contentLoop dom bound tags fuel grandChildren acc
      else acc) acc
    { acc with width := acc.right - acc.left, height := acc.bottom - acc.top }

/-- Recursion depth bound: child links can only walk the (finite) document,
so `length + 1` levels of fuel cover any well-formed document. -/
def contentFuel (dom : Dom) : Nat :=
  dom.elems.length + 1

/-- `getContentRect` (src/domMeasurements.js:156-158): seed the accumulator
with the element's own rect and fold over its filtered children. -/
def getContentRect (dom : Dom) (el : Nat) (bound : Option Nat)
    (tags : Option (List String)) : Box :=
  contentLoop dom bound tags (contentFuel dom) (getChildren dom el tags)
    (getElementRect dom el bound)

/-- A scroll source (`window` or a mock): each field is `none` when the object
does not expose it. -/
structure ScrollSource where
  scrollY : Option Int := none
  scrollX : Option Int := none
  scrollTop : Option Int := none
  scrollLeft : Option Int := none
  pageYOffset : Option Int := none
  pageXOffset : Option Int := none
deriving Repr, DecidableEq, Inhabited

/-- JavaScript `a || b || 0` on numbers: the first operand that is present and
non-zero (truthy), else 0. -/
def orFalsy (a b : Option Int) : Int :=
  match a with
  | some v => if v ≠ 0 then v else
    match b with
    | some w => if w ≠ 0 then w else 0
    | none => 0
  | none =>
    match b with
    | some w => if w ≠ 0 then w else 0
    | none => 0

/-- `getBoundingRect` (src/domMeasurements.js:89-102).  A `none` scroll source
models a non-browser context (`window` unavailable): the rect is returned
unmodified. -/
def getBoundingRect (dom : Dom) (el : Nat) (bound : Option Nat)
    (sc : Option ScrollSource) : Box :=
  let elementRect := getElementRect dom el bound
  match sc with
  | none => elementRect
  | some s =>
    let sY := orFalsy s.scrollY s.scrollTop
    let sX := orFalsy s.scrollX s.scrollLeft
    { elementRect with
      top := elementRect.top - sY
      bottom := elementRect.bottom - sY
      left := elementRect.left - sX
      right := elementRect.right - sX }

/-- `getBoundingContentRect` (src/domMeasurements.js:168-181): like
`getBoundingRect` but over `getContentRect` and reading
`pageYOffset`/`pageXOffset` ahead of `scrollTop`/`scrollLeft`. -/
def getBoundingContentRect (dom : Dom) (el : Nat) (bound : Option Nat)
    (tags : Option (List String)) (sc : Option ScrollSource) : Box :=
  let elementRect := getContentRect dom el bound tags
  match sc with
  | none => elementRect
  | some s =>
    let sY := orFalsy s.pageYOffset s.scrollTop
    let sX := orFalsy s.pageXOffset s.scrollLeft
    { elementRect with
      top := elementRect.top - sY
      bottom := elementRect.bottom - sY
      left := elementRect.left - sX
      right := elementRect.right - sX }

/-- The list of offset parents visited starting from `el` (boundary ignored),
with fuel. -/
def offsetChain (dom : Dom) : Nat → Nat → List Nat
  | 0, _ => []
  | fuel + 1, el =>
    match (dom.get el).offsetParent with
    | none => []
    | some p => p :: offsetChain dom fuel p

/-- The element's full offset-parent chain (enough fuel for well-formed
documents). -/
def elOffsetChain (dom : Dom) (el : Nat) : List Nat :=
  offsetChain dom (el + 1) el

/-! ### Basic lemmas about the offset-parent walk -/

theorem ElemData.default_offsetParent : (default : ElemData).offsetParent = none := rfl

theorem parentsBelow_sound : ∀ (l : List ElemData) (k : Nat), parentsBelow l k = true →
    ∀ j p, (l.getD j default).offsetParent = some p → p < k + j := by
  intro l
  induction l with
  | nil =>
    intro k _ j p hp
    simp [List.getD] at hp
  | cons e rest ih =>
    intro k hwf j p hp
    rw [parentsBelow, Bool.and_eq_true] at hwf
    cases j with
    | zero =>
      simp [List.getD] at hp
      rw [hp] at hwf
      simpa using hwf.1
    | succ j =>
      have := ih (k + 1) hwf.2 j p (by simpa [List.getD] using hp)
      omega

theorem Dom.wf_parent {dom : Dom} (hwf : dom.WFb = true) {i p : Nat}
    (hp : (dom.get i).offsetParent = some p) : p < i := by
  have := parentsBelow_sound dom.elems 0 hwf i p hp
  omega

theorem rectLoop_shift (dom : Dom) (bound : Option Nat) :
    ∀ (fuel cur : Nat) (t l : Int),
      rectLoop dom bound fuel cur t l =
        (t + (rectLoop dom bound fuel cur 0 0).1,
         l + (rectLoop dom bound fuel cur 0 0).2) := by
  intro fuel
  induction fuel with
  | zero => intro cur t l; simp [rectLoop]
  | succ fuel ih =>
    intro cur t l
    rw [rectLoop, rectLoop]
    cases hpar : (dom.get cur).offsetParent with
    | none => simp
    | some p =>
      simp only []
      by_cases hb : bound = some p
      · simp [hb]
      · simp only [if_neg hb]
        rw [ih p, ih p (0 + (getBordersOffset dom p).top + (dom.get p).offsetTop)]
        simp only [Prod.mk.injEq]
        constructor <;> ring

theorem rectLoop_fuel (dom : Dom) (hwf : dom.WFb = true) (bound : Option Nat) :
    ∀ (cur f₁ f₂ : Nat), cur < f₁ → cur < f₂ → ∀ t l : Int,
      rectLoop dom bound f₁ cur t l = rectLoop dom bound f₂ cur t l := by
  intro cur
  induction cur using Nat.strong_induction_on with
  | _ cur ih =>
    intro f₁ f₂ h₁ h₂ t l
    obtain ⟨a, rfl⟩ : ∃ a, f₁ = a + 1 := ⟨f₁ - 1, by omega⟩
    obtain ⟨b, rfl⟩ : ∃ b, f₂ = b + 1 := ⟨f₂ - 1, by omega⟩
    rw [rectLoop, rectLoop]
    cases hpar : (dom.get cur).offsetParent with
    | none => rfl
    | some p =>
      have hp : p < cur := Dom.wf_parent hwf hpar
      by_cases hb : bound = some p
      · simp [hb]
      · simp only [if_neg hb]
        exact ih p hp a b (by omega) (by omega) _ _

theorem rectLoop_step (dom : Dom) (hwf : dom.WFb = true) (bound : Option Nat)
    {el p : Nat} (hpar : (dom.get el).offsetParent = some p) (hb : bound ≠ some p)
    (t l : Int) :
    rectLoop dom bound (el + 1) el t l =
      (t + (dom.get p).borderTop +
        (rectLoop dom bound (p + 1) p (dom.get p).offsetTop (dom.get p).offsetLeft).1,
       l + (dom.get p).borderLeft +
        (rectLoop dom bound (p + 1) p (dom.get p).offsetTop (dom.get p).offsetLeft).2) := by
  have hp : p < el := Dom.wf_parent hwf hpar
  rw [rectLoop]
  simp only [hpar, if_neg hb, getBordersOffset]
  rw [rectLoop_fuel dom hwf bound p el (p + 1) hp (Nat.lt_succ_self p)]
  rw [rectLoop_shift dom bound (p + 1) p
    (t + (dom.get p).borderTop + (dom.get p).offsetTop)
    (l + (dom.get p).borderLeft + (dom.get p).offsetLeft)]
  rw [rectLoop_shift dom bound (p + 1) p (dom.get p).offsetTop (dom.get p).offsetLeft]
  simp only [Prod.mk.injEq]
  constructor <;> ring

theorem getElementRect_width (dom : Dom) (el : Nat) (bound : Option Nat) :
    (getElementRect dom el bound).width = (dom.get el).offsetWidth := rfl

theorem getElementRect_height (dom : Dom) (el : Nat) (bound : Option Nat) :
    (getElementRect dom el bound).height = (dom.get el).offsetHeight := rfl

theorem getElementRect_bottom_eq (dom : Dom) (el : Nat) (bound : Option Nat) :
    (getElementRect dom el bound).bottom =
      (getElementRect dom el bound).top + (getElementRect dom el bound).height := rfl

theorem getElementRect_right_eq (dom : Dom) (el : Nat) (bound : Option Nat) :
    (getElementRect dom el bound).right =
      (getElementRect dom el bound).left + (getElementRect dom el bound).width := rfl

theorem getElementRect_top_def (dom : Dom) (el : Nat) (bound : Option Nat) :
    (getElementRect dom el bound).top =
      (rectLoop dom bound (el + 1) el (dom.get el).offsetTop (dom.get el).offsetLeft).1 := rfl

theorem getElementRect_left_def (dom : Dom) (el : Nat) (bound : Option Nat) :
    (getElementRect dom el bound).left =
      (rectLoop dom bound (el + 1) el (dom.get el).offsetTop (dom.get el).offsetLeft).2 := rfl

theorem getElementRect_root (dom : Dom) (el : Nat) (bound : Option Nat)
    (h : (dom.get el).offsetParent = none) :
    (getElementRect dom el bound).top = (dom.get el).offsetTop ∧
    (getElementRect dom el bound).left = (dom.get el).offsetLeft := by
  rw [getElementRect_top_def, getElementRect_left_def, rectLoop]
  simp [h]

theorem getElementRect_stop (dom : Dom) (el : Nat) (bound : Option Nat) {p : Nat}
    (hpar : (dom.get el).offsetParent = some p) (hb : bound = some p) :
    (getElementRect dom el bound).top = (dom.get el).offsetTop + (dom.get p).borderTop ∧
    (getElementRect dom el bound).left = (dom.get el).offsetLeft + (dom.get p).borderLeft := by
  rw [getElementRect_top_def, getElementRect_left_def, rectLoop]
  simp [hpar, hb, getBordersOffset]

theorem getElementRect_step (dom : Dom) (hwf : dom.WFb = true) (el : Nat)
    (bound : Option Nat) {p : Nat} (hpar : (dom.get el).offsetParent = some p)
    (hb : bound ≠ some p) :
    (getElementRect dom el bound).top =
      (dom.get el).offsetTop + (dom.get p).borderTop + (getElementRect dom p bound).top ∧
    (getElementRect dom el bound).left =
      (dom.get el).offsetLeft + (dom.get p).borderLeft + (getElementRect dom p bound).left := by
  rw [getElementRect_top_def dom el bound, getElementRect_left_def dom el bound,
    getElementRect_top_def dom p bound, getElementRect_left_def dom p bound,
    rectLoop_step dom hwf bound hpar hb]
  constructor <;> ring

/-! ### Lemmas about the content-rect accumulation -/

/-- The body of the `forEach` of src/domMeasurements.js:119-142: process one
child against the accumulated rect. -/
def processChild (dom : Dom) (bound : Option Nat) (tags : Option (List String))
    (fuel : Nat) (acc : Box) (child : Nat) : Box :=
  let rect := getElementRect dom child bound
  let acc :=
    if rect.width > 0 ∧ rect.height > 0 then expandBox acc rect else acc
  let grandChildren := getChildren dom child tags
  if grandChildren ≠ [] ∧ hasOverflow dom child then
    contentLoop dom bound tags fuel grandChildren acc
  else acc

theorem contentLoop_succ (dom : Dom) (bound : Option Nat) (tags : Option (List String))
    (fuel : Nat) (children : List Nat) (acc : Box) :
    contentLoop dom bound tags (fuel + 1) children acc =
      (let acc := children.foldl (processChild dom bound tags fuel) acc
       { acc with width := acc.right - acc.left, height := acc.bottom - acc.top }) := rfl

theorem contentLoop_succ_cons (dom : Dom) (bound : Option Nat) (tags : Option (List String))
    (fuel : Nat) (c : Nat) (rest : List Nat) (acc : Box) :
    contentLoop dom bound tags (fuel + 1) (c :: rest) acc =
      contentLoop dom bound tags (fuel + 1) rest (processChild dom bound tags fuel acc c) := by
  rw [contentLoop_succ, contentLoop_succ, List.foldl_cons]

/-- Box containment, inclusive on all four edges. -/
def boxContains (outer inner : Box) : Prop :=
  outer.top ≤ inner.top ∧ outer.left ≤ inner.left ∧
    inner.bottom ≤ outer.bottom ∧ inner.right ≤ outer.right

theorem boxContains_refl (b : Box) : boxContains b b := by
  simp [boxContains]

theorem boxContains_trans {a b c : Box} (h1 : boxContains a b) (h2 : boxContains b c) :
    boxContains a c := by
  simp only [boxContains] at h1 h2 ⊢
  omega

theorem expandBox_contains (acc r : Box) : boxContains (expandBox acc r) acc := by
  simp only [expandBox, boxContains]
  split_ifs <;> simp_all <;> omega

theorem processChild_contains (dom : Dom) (bound : Option Nat) (tags : Option (List String))
    (fuel : Nat)
    (ih : ∀ children acc, boxContains (contentLoop dom bound tags fuel children acc) acc)
    (acc : Box) (c : Nat) :
    boxContains (processChild dom bound tags fuel acc c) acc := by
  simp only [processChild]
  have h1 : boxContains
      (if (getElementRect dom c bound).width > 0 ∧ (getElementRect dom c bound).height > 0
        then expandBox acc (getElementRect dom c bound) else acc) acc := by
    split
    · exact expandBox_contains _ _
    · exact boxContains_refl _
  split
  · exact boxContains_trans (ih _ _) h1
  · exact h1

theorem contentLoop_contains (dom : Dom) (bound : Option Nat) (tags : Option (List String)) :
    ∀ (fuel : Nat) (children : List Nat) (acc : Box),
      boxContains (contentLoop dom bound tags fuel children acc) acc := by
  intro fuel
  induction fuel with
  | zero => intro children acc; exact boxContains_refl _
  | succ fuel ih =>
    intro children
    induction children with
    | nil =>
      intro acc
      rw [contentLoop_succ]
      simp [boxContains]
    | cons c rest ihc =>
      intro acc
      rw [contentLoop_succ_cons]
      exact boxContains_trans (ihc _) (processChild_contains dom bound tags fuel ih acc c)

theorem contentLoop_succ_wh (dom : Dom) (bound : Option Nat) (tags : Option (List String))
    (fuel : Nat) (children : List Nat) (acc : Box) :
    (contentLoop dom bound tags (fuel + 1) children acc).width =
      (contentLoop dom bound tags (fuel + 1) children acc).right -
        (contentLoop dom bound tags (fuel + 1) children acc).left ∧
    (contentLoop dom bound tags (fuel + 1) children acc).height =
      (contentLoop dom bound tags (fuel + 1) children acc).bottom -
        (contentLoop dom bound tags (fuel + 1) children acc).top := by
  rw [contentLoop_succ]
  simp

theorem getElementRect_inv (dom : Dom) (el : Nat) (bound : Option Nat) :
    (getElementRect dom el bound).bottom - (getElementRect dom el bound).top =
      (getElementRect dom el bound).height ∧
    (getElementRect dom el bound).right - (getElementRect dom el bound).left =
      (getElementRect dom el bound).width := by
  rw [getElementRect_bottom_eq, getElementRect_right_eq]
  omega

theorem getContentRect_wh (dom : Dom) (el : Nat) (bound : Option Nat)
    (tags : Option (List String)) :
    (getContentRect dom el bound tags).width =
      (getContentRect dom el bound tags).right - (getContentRect dom el bound tags).left ∧
    (getContentRect dom el bound tags).height =
      (getContentRect dom el bound tags).bottom - (getContentRect dom el bound tags).top :=
  contentLoop_succ_wh dom bound tags dom.elems.length (getChildren dom el tags)
    (getElementRect dom el bound)

theorem getBoundingRect_inv (dom : Dom) (el : Nat) (bound : Option Nat)
    (sc : Option ScrollSource) :
    (getBoundingRect dom el bound sc).bottom - (getBoundingRect dom el bound sc).top =
      (getBoundingRect dom el bound sc).height ∧
    (getBoundingRect dom el bound sc).right - (getBoundingRect dom el bound sc).left =
      (getBoundingRect dom el bound sc).width := by
  have h := getElementRect_inv dom el bound
  cases sc with
  | none => exact h
  | some s =>
    simp only [getBoundingRect]
    simp
    omega

theorem getBoundingContentRect_inv (dom : Dom) (el : Nat) (bound : Option Nat)
    (tags : Option (List String)) (sc : Option ScrollSource) :
    (getBoundingContentRect dom el bound tags sc).bottom -
        (getBoundingContentRect dom el bound tags sc).top =
      (getBoundingContentRect dom el bound tags sc).height ∧
    (getBoundingContentRect dom el bound tags sc).right -
        (getBoundingContentRect dom el bound tags sc).left =
      (getBoundingContentRect dom el bound tags sc).width := by
  have h := getContentRect_wh dom el bound tags
  cases sc with
  | none => simp only [getBoundingContentRect]; omega
  | some s =>
    simp only [getBoundingContentRect]
    simp
    omega

/-! ### Claim theorems -/

/-- Claim C2: every Box returned by any of the four public operations
(`getElementRect`, `getBoundingRect`, `getContentRect`, `getBoundingContentRect`)
satisfies `bottom - top = height` and `right - left = width`. -/
theorem C2_box_invariant (dom : Dom) (el : Nat) (bound : Option Nat)
    (tags : Option (List String)) (sc : Option ScrollSource) :
    ((getElementRect dom el bound).bottom - (getElementRect dom el bound).top =
        (getElementRect dom el bound).height ∧
      (getElementRect dom el bound).right - (getElementRect dom el bound).left =
        (getElementRect dom el bound).width) ∧
    ((getBoundingRect dom el bound sc).bottom - (getBoundingRect dom el bound sc).top =
        (getBoundingRect dom el bound sc).height ∧
      (getBoundingRect dom el bound sc).right - (getBoundingRect dom el bound sc).left =
        (getBoundingRect dom el bound sc).width) ∧
    ((getContentRect dom el bound tags).bottom - (getContentRect dom el bound tags).top =
        (getContentRect dom el bound tags).height ∧
      (getContentRect dom el bound tags).right - (getContentRect dom el bound tags).left =
        (getContentRect dom el bound tags).width) ∧
    ((getBoundingContentRect dom el bound tags sc).bottom -
          (getBoundingContentRect dom el bound tags sc).top =
        (getBoundingContentRect dom el bound tags sc).height ∧
      (getBoundingContentRect dom el bound tags sc).right -
          (getBoundingContentRect dom el bound tags sc).left =
        (getBoundingContentRect dom el bound tags sc).width) := by
  refine ⟨getElementRect_inv dom el bound, getBoundingRect_inv dom el bound sc, ?_,
    getBoundingContentRect_inv dom el bound tags sc⟩
  have h := getContentRect_wh dom el bound tags
  omega

/-- Claim C3: for every element, boundary and tag filter, the Box returned by
`getContentRect` contains the Box returned by `getElementRect` for the same
element and boundary, inclusively on all four edges. -/
theorem C3_contentRect_contains_elementRect (dom : Dom) (el : Nat) (bound : Option Nat)
    (tags : Option (List String)) :
    (getContentRect dom el bound tags).top ≤ (getElementRect dom el bound).top ∧
    (getContentRect dom el bound tags).left ≤ (getElementRect dom el bound).left ∧
    (getElementRect dom el bound).bottom ≤ (getContentRect dom el bound tags).bottom ∧
    (getElementRect dom el bound).right ≤ (getContentRect dom el bound tags).right :=
  contentLoop_contains dom bound tags (contentFuel dom) (getChildren dom el tags)
    (getElementRect dom el bound)

/-- Claim C4: while accumulating the content rect, a child whose computed overflow
is any value other than "visible" contributes its own box (when of positive size)
through the min/max expansion, but processing it performs no recursion: the rest of
the accumulation continues from the expanded accumulator alone, so the child's
subtree never widens the union beyond the child's own box. -/
theorem C4_nonvisible_child_no_recursion (dom : Dom) (bound : Option Nat)
    (tags : Option (List String)) (fuel : Nat) (c : Nat) (rest : List Nat) (acc : Box)
    (hov : (dom.get c).overflow ≠ "visible") :
    contentLoop dom bound tags (fuel + 1) (c :: rest) acc =
      contentLoop dom bound tags (fuel + 1) rest
        (if (getElementRect dom c bound).width > 0 ∧ (getElementRect dom c bound).height > 0
          then expandBox acc (getElementRect dom c bound) else acc) := by
  rw [contentLoop_succ_cons]
  congr 1
  have hof : hasOverflow dom c = false := by
    simp [hasOverflow, hov]
  simp only [processChild]
  rw [if_neg]
  simp [hof]

/-- Claim C5: while accumulating the content rect, a child whose box has
non-positive width or height is excluded from the min/max expansion, yet recursion
into its filtered children still happens whenever it has filtered children and its
overflow is "visible": the zero-size test never suppresses recursion. -/
theorem C5_zero_size_child_still_recurses (dom : Dom) (bound : Option Nat)
    (tags : Option (List String)) (fuel : Nat) (c : Nat) (rest : List Nat) (acc : Box)
    (hsize : (getElementRect dom c bound).width ≤ 0 ∨ (getElementRect dom c bound).height ≤ 0)
    (hkids : getChildren dom c tags ≠ [])
    (hov : hasOverflow dom c = true) :
    contentLoop dom bound tags (fuel + 1) (c :: rest) acc =
      contentLoop dom bound tags (fuel + 1) rest
        (contentLoop dom bound tags fuel (getChildren dom c tags) acc) := by
  rw [contentLoop_succ_cons]
  congr 1
  simp only [processChild]
  rw [if_neg (by omega : ¬((getElementRect dom c bound).width > 0 ∧
    (getElementRect dom c bound).height > 0))]
  rw [if_pos ⟨hkids, hov⟩]

/-- Claim C6: the viewport projections translate by pure subtraction and leave the
sizes alone.  With `scrollY = 100` and `scrollX = 50` the bounding rect is the
element rect shifted by (-50, -100); with `pageYOffset = 300` the bounding content
rect's top is the content rect's top minus 300; and for every scroll source the
width and height of both projections equal those of the unprojected Box. -/
theorem C6_projection_translates (dom : Dom) (el : Nat) (bound : Option Nat)
    (tags : Option (List String)) (s t u : ScrollSource)
    (hY : s.scrollY = some 100) (hX : s.scrollX = some 50)
    (hP : t.pageYOffset = some 300) :
    ((getBoundingRect dom el bound (some s)).top = (getElementRect dom el bound).top - 100 ∧
     (getBoundingRect dom el bound (some s)).bottom = (getElementRect dom el bound).bottom - 100 ∧
     (getBoundingRect dom el bound (some s)).left = (getElementRect dom el bound).left - 50 ∧
     (getBoundingRect dom el bound (some s)).right = (getElementRect dom el bound).right - 50) ∧
    (getBoundingContentRect dom el bound tags (some t)).top =
      (getContentRect dom el bound tags).top - 300 ∧
    ((getBoundingRect dom el bound (some u)).width = (getElementRect dom el bound).width ∧
     (getBoundingRect dom el bound (some u)).height = (getElementRect dom el bound).height ∧
     (getBoundingContentRect dom el bound tags (some u)).width =
       (getContentRect dom el bound tags).width ∧
     (getBoundingContentRect dom el bound tags (some u)).height =
       (getContentRect dom el bound tags).height) := by
  refine ⟨?_, ?_, ?_⟩
  · simp [getBoundingRect, hY, hX, orFalsy]
  · simp [getBoundingContentRect, hP, orFalsy]
  · simp [getBoundingRect, getBoundingContentRect]

/-- Claim C10: the fallback between scroll-field variants triggers on any falsy
value: with `scrollY = 0` (respectively `pageYOffset = 0`) and `scrollTop = n ≠ 0`,
both projections translate vertically by `n`, not by 0; analogously the zero
`scrollX`/`pageXOffset` fall back to `scrollLeft = m ≠ 0` horizontally. -/
theorem C10_zero_field_falls_back (dom : Dom) (el : Nat) (bound : Option Nat)
    (tags : Option (List String)) (s : ScrollSource) (n m : Int)
    (hY : s.scrollY = some 0) (hT : s.scrollTop = some n) (hn : n ≠ 0)
    (hX : s.scrollX = some 0) (hL : s.scrollLeft = some m) (hm : m ≠ 0)
    (hPY : s.pageYOffset = some 0) (hPX : s.pageXOffset = some 0) :
    ((getBoundingRect dom el bound (some s)).top = (getElementRect dom el bound).top - n ∧
     (getBoundingRect dom el bound (some s)).bottom = (getElementRect dom el bound).bottom - n ∧
     (getBoundingRect dom el bound (some s)).left = (getElementRect dom el bound).left - m ∧
     (getBoundingRect dom el bound (some s)).right = (getElementRect dom el bound).right - m) ∧
    ((getBoundingContentRect dom el bound tags (some s)).top =
       (getContentRect dom el bound tags).top - n ∧
     (getBoundingContentRect dom el bound tags (some s)).bottom =
       (getContentRect dom el bound tags).bottom - n ∧
     (getBoundingContentRect dom el bound tags (some s)).left =
       (getContentRect dom el bound tags).left - m ∧
     (getBoundingContentRect dom el bound tags (some s)).right =
       (getContentRect dom el bound tags).right - m) := by
  constructor
  · simp [getBoundingRect, hY, hX, hT, hL, orFalsy, hn, hm]
  · simp [getBoundingContentRect, hPY, hPX, hT, hL, orFalsy, hn, hm]

theorem rectLoop_bound_not_mem (dom : Dom) (b : Nat) :
    ∀ (fuel cur : Nat) (t l : Int), b ∉ offsetChain dom fuel cur →
      rectLoop dom (some b) fuel cur t l = rectLoop dom none fuel cur t l := by
  intro fuel
  induction fuel with
  | zero => intro cur t l _; rfl
  | succ fuel ih =>
    intro cur t l hmem
    rw [offsetChain] at hmem
    rw [rectLoop, rectLoop]
    cases hpar : (dom.get cur).offsetParent with
    | none => rfl
    | some p =>
      rw [hpar] at hmem
      simp only [List.mem_cons, not_or] at hmem
      simp only [Option.some.injEq, if_neg hmem.1, reduceCtorEq, if_false]
      exact ih p _ _ hmem.2

/-- Claim C8: a boundary element that does not occur in the element's
offset-parent chain is silently ignored: `getElementRect` performs the full walk
and returns exactly the Box of the boundary-less call. -/
theorem C8_foreign_boundary_ignored (dom : Dom) (el : Nat) (b : Nat)
    (hb : b ∉ elOffsetChain dom el) :
    getElementRect dom el (some b) = getElementRect dom el none := by
  simp only [getElementRect]
  rw [rectLoop_bound_not_mem dom b (el + 1) el _ _ hb]

/-- Claim C1: `getElementRect` starts from the element's own offsetTop/offsetLeft
and offsetWidth/offsetHeight and walks the offset-parent chain.  With no offset
parent the offsets are returned as-is; when the parent is the supplied boundary
only that parent's border widths are added and the walk stops; otherwise the
parent's border widths are added, then its own offsets, and the walk continues
from the parent (whose accumulated position is the remainder of the walk).  The
width and height are the element's own throughout. -/
theorem C1_elementRect_walk (dom : Dom) (hwf : dom.WFb = true) (el : Nat)
    (bound : Option Nat) :
    ((getElementRect dom el bound).width = (dom.get el).offsetWidth ∧
     (getElementRect dom el bound).height = (dom.get el).offsetHeight) ∧
    ((dom.get el).offsetParent = none →
      (getElementRect dom el bound).top = (dom.get el).offsetTop ∧
      (getElementRect dom el bound).left = (dom.get el).offsetLeft) ∧
    (∀ p, (dom.get el).offsetParent = some p → bound = some p →
      (getElementRect dom el bound).top =
        (dom.get el).offsetTop + (dom.get p).borderTop ∧
      (getElementRect dom el bound).left =
        (dom.get el).offsetLeft + (dom.get p).borderLeft) ∧
    (∀ p, (dom.get el).offsetParent = some p → bound ≠ some p →
      (getElementRect dom el bound).top =
        (dom.get el).offsetTop + (dom.get p).borderTop + (getElementRect dom p bound).top ∧
      (getElementRect dom el bound).left =
        (dom.get el).offsetLeft + (dom.get p).borderLeft + (getElementRect dom p bound).left) :=
  ⟨⟨rfl, rfl⟩, fun h => getElementRect_root dom el bound h,
    fun _ hpar hb => getElementRect_stop dom el bound hpar hb,
    fun _ hpar hb => getElementRect_step dom hwf el bound hpar hb⟩

/-! ### Lemmas about the offset-parent chain, for the boundary claims -/

theorem offsetChain_fuel (dom : Dom) (hwf : dom.WFb = true) :
    ∀ (cur f₁ f₂ : Nat), cur < f₁ → cur < f₂ →
      offsetChain dom f₁ cur = offsetChain dom f₂ cur := by
  intro cur
  induction cur using Nat.strong_induction_on with
  | _ cur ih =>
    intro f₁ f₂ h₁ h₂
    obtain ⟨a, rfl⟩ : ∃ a, f₁ = a + 1 := ⟨f₁ - 1, by omega⟩
    obtain ⟨b, rfl⟩ : ∃ b, f₂ = b + 1 := ⟨f₂ - 1, by omega⟩
    rw [offsetChain, offsetChain]
    cases hpar : (dom.get cur).offsetParent with
    | none => rfl
    | some p =>
      have hp : p < cur := Dom.wf_parent hwf hpar
      show p :: offsetChain dom a p = p :: offsetChain dom b p
      rw [ih p hp a b (by omega) (by omega)]

theorem offsetChain_lt (dom : Dom) (hwf : dom.WFb = true) :
    ∀ (fuel cur q : Nat), q ∈ offsetChain dom fuel cur → q < cur := by
  intro fuel
  induction fuel with
  | zero => intro cur q h; simp [offsetChain] at h
  | succ fuel ih =>
    intro cur q h
    rw [offsetChain] at h
    cases hpar : (dom.get cur).offsetParent with
    | none => rw [hpar] at h; simp at h
    | some p =>
      rw [hpar] at h
      have hp : p < cur := Dom.wf_parent hwf hpar
      rcases List.mem_cons.mp h with rfl | h
      · exact hp
      · exact Nat.lt_trans (ih p q h) hp

theorem elOffsetChain_cons (dom : Dom) (hwf : dom.WFb = true) {el p : Nat}
    (hpar : (dom.get el).offsetParent = some p) :
    elOffsetChain dom el = p :: elOffsetChain dom p := by
  rw [elOffsetChain, elOffsetChain, offsetChain]
  rw [hpar]
  have hp : p < el := Dom.wf_parent hwf hpar
  show p :: offsetChain dom el p = p :: offsetChain dom (p + 1) p
  rw [offsetChain_fuel dom hwf p el (p + 1) hp (Nat.lt_succ_self p)]

theorem elOffsetChain_nil (dom : Dom) {el : Nat}
    (hpar : (dom.get el).offsetParent = none) :
    elOffsetChain dom el = [] := by
  rw [elOffsetChain, offsetChain, hpar]

theorem box_ext (a b : Box) (ht : a.top = b.top) (hl : a.left = b.left)
    (hw : a.width = b.width) (hh : a.height = b.height)
    (hb : a.bottom = b.bottom) (hr : a.right = b.right) : a = b := by
  cases a; cases b; simp_all

theorem getElementRect_bound_ext (dom : Dom) (el : Nat) (b1 b2 : Option Nat)
    (ht : (getElementRect dom el b1).top = (getElementRect dom el b2).top)
    (hl : (getElementRect dom el b1).left = (getElementRect dom el b2).left) :
    getElementRect dom el b1 = getElementRect dom el b2 := by
  refine box_ext _ _ ht hl rfl rfl ?_ ?_
  · rw [getElementRect_bottom_eq, getElementRect_bottom_eq, ht]
    rfl
  · rw [getElementRect_right_eq, getElementRect_right_eq, hl]
    rfl

theorem mem_of_getLast? {l : List Nat} {a : Nat} (h : l.getLast? = some a) : a ∈ l := by
  induction l with
  | nil => simp at h
  | cons x xs ih =>
    cases xs with
    | nil =>
      simp [List.getLast?] at h
      simp [h]
    | cons y ys =>
      rw [List.getLast?_cons_cons] at h
      exact List.mem_cons_of_mem x (ih h)

theorem rootBoundary_core (dom : Dom) (hwf : dom.WFb = true) (R : Nat)
    (hT : (dom.get R).offsetTop = 0) (hL : (dom.get R).offsetLeft = 0) :
    ∀ el, (elOffsetChain dom el).getLast? = some R →
      getElementRect dom el (some R) = getElementRect dom el none := by
  intro el
  induction el using Nat.strong_induction_on with
  | _ el ih =>
    intro hR
    cases hpar : (dom.get el).offsetParent with
    | none =>
      rw [elOffsetChain_nil dom hpar] at hR
      simp at hR
    | some p =>
      rw [elOffsetChain_cons dom hwf hpar] at hR
      cases hc : elOffsetChain dom p with
      | nil =>
        rw [hc] at hR
        simp [List.getLast?] at hR
        subst hR
        have hpp : (dom.get p).offsetParent = none := by
          cases hq : (dom.get p).offsetParent with
          | none => rfl
          | some q =>
            rw [elOffsetChain_cons dom hwf hq] at hc
            simp at hc
        apply getElementRect_bound_ext
        · rcases getElementRect_stop dom el (some p) hpar rfl with ⟨ht1, _⟩
          rcases getElementRect_step dom hwf el none hpar (by simp) with ⟨ht2, _⟩
          rcases getElementRect_root dom p none hpp with ⟨ht3, _⟩
          rw [ht1, ht2, ht3, hT]
          ring
        · rcases getElementRect_stop dom el (some p) hpar rfl with ⟨_, hl1⟩
          rcases getElementRect_step dom hwf el none hpar (by simp) with ⟨_, hl2⟩
          rcases getElementRect_root dom p none hpp with ⟨_, hl3⟩
          rw [hl1, hl2, hl3, hL]
          ring
      | cons q rest =>
        rw [hc, List.getLast?_cons_cons] at hR
        have hmem : R ∈ elOffsetChain dom p := by
          rw [hc]
          exact mem_of_getLast? hR
        have hRp : R < p := offsetChain_lt dom hwf (p + 1) p R hmem
        have hne : (some R : Option Nat) ≠ some p := by
          simp only [Ne, Option.some.injEq]
          omega
        have hprev := ih p (Dom.wf_parent hwf hpar) (by rw [hc]; exact hR)
        apply getElementRect_bound_ext
        · rcases getElementRect_step dom hwf el (some R) hpar hne with ⟨ht1, _⟩
          rcases getElementRect_step dom hwf el none hpar (by simp) with ⟨ht2, _⟩
          rw [ht1, ht2, hprev]
        · rcases getElementRect_step dom hwf el (some R) hpar hne with ⟨_, hl1⟩
          rcases getElementRect_step dom hwf el none hpar (by simp) with ⟨_, hl2⟩
          rw [hl1, hl2, hprev]

/-- Document exhibiting a final offset parent with non-zero own offsets: the
root (index 0) has `offsetTop = 7`, `offsetLeft = 3`. -/
def rootOffsetDom : Dom := ⟨[
  { offsetTop := 7, offsetLeft := 3 },
  { offsetTop := 10, offsetLeft := 20, offsetWidth := 30, offsetHeight := 40,
    offsetParent := some 0 }
]⟩

/-- Counterexample to claim C7 as stated: element 1's final offset parent is
element 0, yet passing it as the boundary does not reproduce the
boundary-less Box, because the boundary-less walk additionally adds the final
parent's own offsetTop/offsetLeft (7 and 3 here). -/
theorem C7_counterexample :
    rootOffsetDom.WFb = true ∧
    (elOffsetChain rootOffsetDom 1).getLast? = some 0 ∧
    getElementRect rootOffsetDom 1 (some 0) ≠ getElementRect rootOffsetDom 1 none := by
  decide

/-- Claim C7 (amended): `getElementRect` with the final offset parent `R` of the
element's chain as boundary returns the same Box as `getElementRect` with no
boundary, provided `R`'s own offsetTop and offsetLeft are zero — which holds for
a genuine document root, but is what the stated claim misses in general. -/
theorem C7_amended_root_boundary (dom : Dom) (hwf : dom.WFb = true) (el R : Nat)
    (hR : (elOffsetChain dom el).getLast? = some R)
    (hT : (dom.get R).offsetTop = 0) (hL : (dom.get R).offsetLeft = 0) :
    getElementRect dom el (some R) = getElementRect dom el none :=
  rootBoundary_core dom hwf R hT hL el hR

/-- Document with one parent (index 0) whose sole child (index 1) has an
upper-case tag name `"DIV"`. -/
def upperTagDom : Dom := ⟨[
  { children := [1] },
  { tagName := "DIV" }
]⟩

/-- Counterexample to claim C9 as stated: the child's tag name `"DIV"` equals the
filter entry `"DIV"` (even literally, hence certainly up to letter case), yet the
child is filtered out, because the code lowercases the child's tag name and
compares it with the entries verbatim. -/
theorem C9_counterexample :
    (upperTagDom.get 0).children = [1] ∧
    (upperTagDom.get 1).tagName = "DIV" ∧
    getChildren upperTagDom 0 (some ["DIV"]) = [] := by
  decide

/-- Claim C9 (amended): the Child Filter lowercases only the child's tag name and
tests literal membership in the entry list: a child is kept exactly when some
entry equals the lowercased form of its tag name.  Matching is therefore
insensitive to the case of the child's tag name, but an entry containing an
upper-case letter never matches anything. -/
theorem C9_amended_lowercased_tag_match (dom : Dom) (el : Nat) (ts : List String)
    (c : Nat) :
    c ∈ getChildren dom el (some ts) ↔
      c ∈ (dom.get el).children ∧ strLower (dom.get c).tagName ∈ ts := by
  simp [getChildren, List.mem_filter]

/-! ### Concrete documents and witnesses -/

/-- Three-level document: 2 is positioned in 1, which is positioned in the
root 0; the root has non-zero own offsets and the ancestors have borders. -/
def wDom : Dom := ⟨[
  { offsetTop := 5, offsetLeft := 7 },
  { offsetTop := 10, offsetLeft := 20, offsetParent := some 0,
    borderTop := 1, borderLeft := 2 },
  { offsetTop := 100, offsetLeft := 200, offsetWidth := 50, offsetHeight := 60,
    offsetParent := some 1, borderTop := 3, borderLeft := 4 }
]⟩

/-- Like `wDom` but with a root whose own offsets are zero. -/
def zDom : Dom := ⟨[
  { borderTop := 4, borderLeft := 6 },
  { offsetTop := 10, offsetLeft := 20, offsetParent := some 0,
    borderTop := 1, borderLeft := 2 },
  { offsetTop := 100, offsetLeft := 200, offsetWidth := 30, offsetHeight := 40,
    offsetParent := some 1 }
]⟩

/-- A parent whose child 1 is overflow-hidden with a grandchild 2. -/
def ovDom : Dom := ⟨[
  { children := [1] },
  { offsetTop := 5, offsetLeft := 6, offsetWidth := 7, offsetHeight := 8,
    overflow := "hidden", children := [2] },
  { offsetTop := 1, offsetWidth := 2, offsetHeight := 2 }
]⟩

/-- A parent whose child 1 has zero width but visible overflow and a
grandchild 2. -/
def zchDom : Dom := ⟨[
  { children := [1] },
  { offsetWidth := 0, offsetHeight := 10, overflow := "visible", children := [2] },
  { offsetTop := 3, offsetWidth := 4, offsetHeight := 5 }
]⟩

/-- A starting accumulator box for the content-rect witnesses. -/
def boxA : Box :=
  { top := 0, left := 0, width := 10, height := 10, bottom := 10, right := 10 }

/-- Scroll source reporting scrollY 100 / scrollX 50. -/
def srcYX : ScrollSource := { scrollY := some 100, scrollX := some 50 }

/-- Scroll source reporting pageYOffset 300. -/
def srcP : ScrollSource := { pageYOffset := some 300 }

/-- Scroll source exposing only element-style scroll fields. -/
def srcT : ScrollSource := { scrollTop := some 7, scrollLeft := some 8 }

/-- Scroll source whose window-style fields are 0 and whose element-style
fields are non-zero. -/
def srcZero : ScrollSource :=
  { scrollY := some 0, scrollX := some 0, scrollTop := some 30,
    scrollLeft := some 40, pageYOffset := some 0, pageXOffset := some 0 }

theorem C1_elementRect_walk_witness :
    wDom.WFb = true ∧
    (((getElementRect wDom 2 (some 1)).width = (wDom.get 2).offsetWidth ∧
      (getElementRect wDom 2 (some 1)).height = (wDom.get 2).offsetHeight) ∧
    ((wDom.get 2).offsetParent = none →
      (getElementRect wDom 2 (some 1)).top = (wDom.get 2).offsetTop ∧
      (getElementRect wDom 2 (some 1)).left = (wDom.get 2).offsetLeft) ∧
    (∀ p, (wDom.get 2).offsetParent = some p → (some 1 : Option Nat) = some p →
      (getElementRect wDom 2 (some 1)).top =
        (wDom.get 2).offsetTop + (wDom.get p).borderTop ∧
      (getElementRect wDom 2 (some 1)).left =
        (wDom.get 2).offsetLeft + (wDom.get p).borderLeft) ∧
    (∀ p, (wDom.get 2).offsetParent = some p → (some 1 : Option Nat) ≠ some p →
      (getElementRect wDom 2 (some 1)).top =
        (wDom.get 2).offsetTop + (wDom.get p).borderTop +
          (getElementRect wDom p (some 1)).top ∧
      (getElementRect wDom 2 (some 1)).left =
        (wDom.get 2).offsetLeft + (wDom.get p).borderLeft +
          (getElementRect wDom p (some 1)).left)) :=
  ⟨by decide, C1_elementRect_walk wDom (by decide) 2 (some 1)⟩

theorem C4_nonvisible_child_no_recursion_witness :
    (ovDom.get 1).overflow ≠ "visible" ∧
    contentLoop ovDom none none 4 [1] boxA =
      contentLoop ovDom none none 4 []
        (if (getElementRect ovDom 1 none).width > 0 ∧ (getElementRect ovDom 1 none).height > 0
          then expandBox boxA (getElementRect ovDom 1 none) else boxA) :=
  ⟨by decide, C4_nonvisible_child_no_recursion ovDom none none 3 1 [] boxA (by decide)⟩

theorem C5_zero_size_child_still_recurses_witness :
    ((getElementRect zchDom 1 none).width ≤ 0 ∨ (getElementRect zchDom 1 none).height ≤ 0) ∧
    getChildren zchDom 1 none ≠ [] ∧
    hasOverflow zchDom 1 = true ∧
    contentLoop zchDom none none 3 [1] boxA =
      contentLoop zchDom none none 3 []
        (contentLoop zchDom none none 2 (getChildren zchDom 1 none) boxA) :=
  ⟨by decide, by decide, by decide,
    C5_zero_size_child_still_recurses zchDom none none 2 1 [] boxA (by decide) (by decide)
      (by decide)⟩

theorem C6_projection_translates_witness :
    srcYX.scrollY = some 100 ∧ srcYX.scrollX = some 50 ∧ srcP.pageYOffset = some 300 ∧
    (((getBoundingRect wDom 2 none (some srcYX)).top = (getElementRect wDom 2 none).top - 100 ∧
      (getBoundingRect wDom 2 none (some srcYX)).bottom =
        (getElementRect wDom 2 none).bottom - 100 ∧
      (getBoundingRect wDom 2 none (some srcYX)).left = (getElementRect wDom 2 none).left - 50 ∧
      (getBoundingRect wDom 2 none (some srcYX)).right =
        (getElementRect wDom 2 none).right - 50) ∧
    (getBoundingContentRect wDom 2 none none (some srcP)).top =
      (getContentRect wDom 2 none none).top - 300 ∧
    ((getBoundingRect wDom 2 none (some srcT)).width = (getElementRect wDom 2 none).width ∧
     (getBoundingRect wDom 2 none (some srcT)).height = (getElementRect wDom 2 none).height ∧
     (getBoundingContentRect wDom 2 none none (some srcT)).width =
       (getContentRect wDom 2 none none).width ∧
     (getBoundingContentRect wDom 2 none none (some srcT)).height =
       (getContentRect wDom 2 none none).height)) :=
  ⟨by decide, by decide, by decide,
    C6_projection_translates wDom 2 none none srcYX srcP srcT (by decide) (by decide)
      (by decide)⟩

theorem C7_amended_root_boundary_witness :
    zDom.WFb = true ∧
    (elOffsetChain zDom 2).getLast? = some 0 ∧
    (zDom.get 0).offsetTop = 0 ∧
    (zDom.get 0).offsetLeft = 0 ∧
    getElementRect zDom 2 (some 0) = getElementRect zDom 2 none :=
  ⟨by decide, by decide, by decide, by decide,
    C7_amended_root_boundary zDom (by decide) 2 0 (by decide) (by decide) (by decide)⟩

theorem C8_foreign_boundary_ignored_witness :
    (9 : Nat) ∉ elOffsetChain wDom 2 ∧
    getElementRect wDom 2 (some 9) = getElementRect wDom 2 none :=
  ⟨by decide, C8_foreign_boundary_ignored wDom 2 9 (by decide)⟩

theorem C10_zero_field_falls_back_witness :
    srcZero.scrollY = some 0 ∧ srcZero.scrollTop = some 30 ∧ (30 : Int) ≠ 0 ∧
    srcZero.scrollX = some 0 ∧ srcZero.scrollLeft = some 40 ∧ (40 : Int) ≠ 0 ∧
    srcZero.pageYOffset = some 0 ∧ srcZero.pageXOffset = some 0 ∧
    (((getBoundingRect wDom 2 none (some srcZero)).top =
        (getElementRect wDom 2 none).top - 30 ∧
      (getBoundingRect wDom 2 none (some srcZero)).bottom =
        (getElementRect wDom 2 none).bottom - 30 ∧
      (getBoundingRect wDom 2 none (some srcZero)).left =
        (getElementRect wDom 2 none).left - 40 ∧
      (getBoundingRect wDom 2 none (some srcZero)).right =
        (getElementRect wDom 2 none).right - 40) ∧
    ((getBoundingContentRect wDom 2 none none (some srcZero)).top =
        (getContentRect wDom 2 none none).top - 30 ∧
      (getBoundingContentRect wDom 2 none none (some srcZero)).bottom =
        (getContentRect wDom 2 none none).bottom - 30 ∧
      (getBoundingContentRect wDom 2 none none (some srcZero)).left =
        (getContentRect wDom 2 none none).left - 40 ∧
      (getBoundingContentRect wDom 2 none none (some srcZero)).right =
        (getContentRect wDom 2 none none).right - 40)) :=
  ⟨by decide, by decide, by decide, by decide, by decide, by decide, by decide, by decide,
    C10_zero_field_falls_back wDom 2 none none srcZero 30 40 (by decide) (by decide)
      (by decide) (by decide) (by decide) (by decide) (by decide) (by decide)⟩
